import Mathlib

/- Verification of the wikijs-cli client layer (src/lib/api.js) and its
   text-analysis helpers (src/lib/helpers.js, src/tests/helpers.test.js),
   shallowly embedded over lists of characters and explicit Option/Except
   values.  Strings are Lean strings; JS `undefined`/`null` inputs are
   `Option.none`; thrown JS errors are `Except.error` carrying the thrown
   message or a structured error value. -/

namespace Wikijs

/-! ## StringSanitizer (src/lib/api.js, sanitizeString, lines 21-29)

The JS function applies five global single-character `String.replace`
passes in sequence.  A global replace of a one-character pattern never
rescans its own replacement text, so each pass is faithfully a flat map
over the characters of its input. -/

/-- One global `String.replace` pass of a single-character pattern:
every occurrence of `target` becomes `repl`, other characters are kept. -/
def replacePass (target : Char) (repl : List Char) (s : List Char) : List Char :=
  s.flatMap (fun c => if c = target then repl else [c])

/-- Embeds `sanitizeString` from src/lib/api.js: empty string for
null/undefined input, otherwise the five escape passes in source order
(backslash, double-quote, newline, carriage return, tab). -/
def sanitizeString : Option String → String
  | none => ""
  | some s =>
    String.mk (replacePass '\t' ['\\', 't']
      (replacePass '\r' ['\\', 'r']
        (replacePass '\n' ['\\', 'n']
          (replacePass '"' ['\\', '"']
            (replacePass '\\' ['\\', '\\'] s.data)))))

/-- The spec's description of the sanitizer as a per-character substitution
table (each of the five characters becomes its two-character escape, all
other characters are untouched).  Used to compare the sequential-pass
implementation against the spec's reading. -/
def escapeCharSpec (c : Char) : List Char :=
  if c = '\\' then ['\\', '\\']
  else if c = '"' then ['\\', '"']
  else if c = '\n' then ['\\', 'n']
  else if c = '\r' then ['\\', 'r']
  else if c = '\t' then ['\\', 't']
  else [c]

/-- Spec-side sanitizer: one simultaneous character-wise substitution. -/
def sanitizeSpec (s : String) : String := String.mk (s.data.flatMap escapeCharSpec)

/-! ## Validator (src/lib/api.js, validateId lines 32-38, validatePath 41-52) -/

/-- Whitespace characters skipped by JS `parseInt` (the common ASCII set). -/
def jsWhitespace (c : Char) : Bool :=
  c = ' ' || c = '\t' || c = '\n' || c = '\r' || c = '\x0b' || c = '\x0c'

/-- Decimal value of a digit character. -/
def digitVal (c : Char) : Nat := c.toNat - 48

/-- Parses the maximal leading run of decimal digits; `none` when there is
no leading digit (the NaN case of `parseInt`). -/
def parseDigits (cs : List Char) : Option Nat :=
  let ds := cs.takeWhile Char.isDigit
  if ds = [] then none
  else some (ds.foldl (fun acc c => acc * 10 + digitVal c) 0)

/-- JS `parseInt(s, 10)` over a character list: skip leading whitespace,
optional sign, then the maximal run of decimal digits; `none` models NaN
(`parseDigits [] = none`, so the empty remainder is NaN as in JS). -/
def parseIntChars (cs : List Char) : Option Int :=
  match cs.dropWhile jsWhitespace with
  | [] => none
  | c :: rest =>
    if c = '-' then (parseDigits rest).map (fun n => -(n : Int))
    else if c = '+' then (parseDigits rest).map (fun n => (n : Int))
    else (parseDigits (c :: rest)).map (fun n => (n : Int))

/-- Embeds JS `parseInt(s, 10)`. -/
def parseIntJS (s : String) : Option Int := parseIntChars s.data

/-- Embeds `validateId` from src/lib/api.js: `parseInt(id, 10)`, then
reject NaN and values below 1. -/
def validateId (id : String) : Except String Int :=
  match parseIntJS id with
  | none => .error ("Invalid ID: " ++ id)
  | some n => if n < 1 then .error ("Invalid ID: " ++ id) else .ok n

/-- The characters rejected inside a page path by `validatePath`. -/
def invalidPathChars : List Char := ['<', '>', ':', '"', '|', '?', '*']

/-- A JS value as seen by `validatePath`: null/undefined, a string, or a
non-string value (any other runtime type). -/
inductive JsStrInput where
  | nullish
  | str (s : String)
  | nonString
deriving DecidableEq, Repr

/-- Embeds `path.startsWith('/') ? path.slice(1) : path`. -/
def cleanPath (p : String) : String :=
  match p.data with
  | '/' :: rest => String.mk rest
  | _ => p

/-- Embeds `validatePath` from src/lib/api.js.  A nullish input and the
empty string are falsy, so they fail the `!path` guard; a non-string
value fails the `typeof path !== 'string'` guard (or the falsiness guard);
both throw `Path is required`.  Otherwise one leading '/' is stripped and
the remainder is checked against the invalid-character class. -/
def validatePath : JsStrInput → Except String String
  | .nullish => .error "Path is required"
  | .nonString => .error "Path is required"
  | .str p =>
    if p = "" then .error "Path is required"
    else
      let cp := cleanPath p
      if cp.data.any (fun c => c ∈ invalidPathChars) then
        .error ("Invalid characters in path: " ++ p)
      else .ok cp

/-! ## GraphQLClient (src/lib/api.js, GraphQLError 10-17, graphql 55-64,
interceptor 80-88) -/

/-- One entry of a GraphQL `errors` array (only `message` is read). -/
structure GqlErr where
  message : String
deriving DecidableEq, Repr

/-- The decoded response envelope: optional `data` payload and an optional
`errors` array (`none` models an absent field). -/
structure Envelope (α : Type) where
  data : Option α
  errors : Option (List GqlErr)
deriving DecidableEq, Repr

/-- Embeds the `GraphQLError` class: it stores the error array verbatim and
its surfaced message is `errors.map(e => e.message).join('; ')`. -/
structure GraphQLErr where
  errors : List GqlErr
  message : String
deriving DecidableEq, Repr

/-- The `GraphQLError` constructor from src/lib/api.js lines 10-17. -/
def GraphQLErr.ofErrors (errors : List GqlErr) : GraphQLErr :=
  { errors := errors
    message := String.intercalate "; " (errors.map (fun e => e.message)) }

/-- A failure raised by `graphql`: a remote-reported GraphQL error, or the
underlying transport error rethrown unchanged by the interceptor. -/
inductive ExecError where
  | gql (e : GraphQLErr)
  | transport
deriving DecidableEq, Repr

/-- Outcome of the HTTP POST: a successful response carrying an envelope,
or an HTTP error whose response body may itself decode to an envelope. -/
inductive HttpOutcome (α : Type) where
  | success (env : Envelope α)
  | failure (respEnv : Option (Envelope α))
deriving DecidableEq, Repr

/-- Embeds the axios response interceptor (src/lib/api.js lines 80-88): on
an HTTP error whose body has an `errors` field (a JS array is truthy even
when empty) it throws `GraphQLError(errors)`; otherwise it rethrows the
transport error.  Successful responses pass through. -/
def interceptResponse : HttpOutcome α → Except ExecError (Envelope α)
  | .success env => .ok env
  | .failure (some env) =>
    match env.errors with
    | some errs => .error (.gql (GraphQLErr.ofErrors errs))
    | none => .error .transport
  | .failure none => .error .transport

/-- Embeds `graphql` (src/lib/api.js lines 55-64): after the interceptor,
a successful response with a non-empty `errors` array raises
`GraphQLError`; otherwise `response.data?.data` is returned. -/
def graphql (out : HttpOutcome α) : Except ExecError (Option α) :=
  match interceptResponse out with
  | .error e => .error e
  | .ok env =>
    match env.errors with
    | some errs =>
      if 0 < errs.length then .error (.gql (GraphQLErr.ofErrors errs))
      else .ok env.data
    | none => .ok env.data

/-! ## Mutation result handling (src/lib/api.js, createPage 309-316,
updatePage 361-368) -/

/-- The `responseResult` object of a Wiki.js mutation. -/
structure RespResult where
  succeeded : Bool
  errorCode : Option Int
  message : Option String
deriving DecidableEq, Repr

/-- JS `v || fallback` for a string-or-nullish value: null, undefined and
the empty string are falsy and select the fallback. -/
def jsOrString (v : Option String) (fallback : String) : String :=
  match v with
  | some s => if s = "" then fallback else s
  | none => fallback

/-- The `page` projection returned by the create mutation. -/
structure CreatedPage where
  id : Int
  path : String
  title : String
deriving DecidableEq, Repr

/-- The decoded `data?.pages?.create` value. -/
structure CreateResult where
  responseResult : Option RespResult
  page : Option CreatedPage
deriving DecidableEq, Repr

/-- Embeds the tail of `createPage` (src/lib/api.js lines 309-316): throw
`result?.responseResult?.message || 'Failed to create page'` unless
`result?.responseResult?.succeeded` is truthy, else return `result.page`. -/
def handleCreateResult : Option CreateResult → Except String (Option CreatedPage)
  | none => .error (jsOrString none "Failed to create page")
  | some r =>
    match r.responseResult with
    | none => .error (jsOrString none "Failed to create page")
    | some rr =>
      if rr.succeeded then .ok r.page
      else .error (jsOrString rr.message "Failed to create page")

/-- The `page` projection returned by the update mutation. -/
structure UpdatedPage where
  id : Int
  path : String
  title : String
  updatedAt : String
deriving DecidableEq, Repr

/-- The decoded `data?.pages?.update` value. -/
structure UpdateResult where
  responseResult : Option RespResult
  page : Option UpdatedPage
deriving DecidableEq, Repr

/-- Embeds the tail of `updatePage` (src/lib/api.js lines 361-368), same
pattern as `handleCreateResult` with this operation's default message. -/
def handleUpdateResult : Option UpdateResult → Except String (Option UpdatedPage)
  | none => .error (jsOrString none "Failed to update page")
  | some r =>
    match r.responseResult with
    | none => .error (jsOrString none "Failed to update page")
    | some rr =>
      if rr.succeeded then .ok r.page
      else .error (jsOrString rr.message "Failed to update page")

/-! ## updatePage (src/lib/api.js lines 319-369) -/

/-- The current page as consumed by `updatePage` after `getPage` (tags
already flattened to bare strings).  `description` and `tags` are optional
because the update mutation guards them with `?? ''` and `?? []`. -/
structure PageData where
  id : Int
  path : String
  title : String
  content : String
  description : Option String
  tags : Option (List String)
  isPublished : Bool
  updatedAt : String
deriving DecidableEq, Repr

/-- The caller-supplied options of `updatePage`; `none` is an omitted
(undefined) field. -/
structure UpdateOptions where
  content : Option String := none
  title : Option String := none
  description : Option String := none
  tags : Option (List String) := none
  isPublished : Option Bool := none
deriving DecidableEq, Repr

/-- The complete field set interpolated into the update mutation text
(src/lib/api.js lines 334-344). -/
structure UpdateFields where
  id : Int
  content : String
  description : String
  isPublished : Bool
  tags : List String
  title : String
deriving DecidableEq, Repr

/-- Embeds the argument list of the update mutation: each omitted option
falls back with `??` to the fetched page's value (`description` and `tags`
further fall back to `''` and `[]`). -/
def buildUpdateFields (validId : Int) (o : UpdateOptions) (cur : PageData) : UpdateFields :=
  { id := validId
    content := o.content.getD cur.content
    description := o.description.getD (cur.description.getD "")
    isPublished := o.isPublished.getD cur.isPublished
    tags := o.tags.getD (cur.tags.getD [])
    title := o.title.getD cur.title }

/-- The remote side as seen by `updatePage`: `getPage` by valid id, and
the update mutation decoding to `data?.pages?.update`. -/
structure Remote where
  getPage : Int → Option PageData
  update : UpdateFields → Option UpdateResult

/-- Embeds `updatePage` (src/lib/api.js lines 319-369): validate the id,
fetch the current page (`getPage` throws `Page not found` on an absent
result), issue the mutation with the merged full field set, and check the
`responseResult.succeeded` contract. -/
def updatePage (remote : Remote) (idRaw : String) (o : UpdateOptions) :
    Except String (Option UpdatedPage) :=
  match validateId idRaw with
  | .error e => .error e
  | .ok v =>
    match remote.getPage v with
    | none => .error ("Page not found: " ++ toString v)
    | some cur => handleUpdateResult (remote.update (buildUpdateFields v o cur))

/-! ## diffStrings (src/lib/helpers.js lines 243-291) -/

/-- JS `str.split(sep)` for a one-character separator: splits at every
occurrence, keeping empty pieces (`"".split` is `[""]`). -/
def splitOnChar (sep : Char) : List Char → List (List Char)
  | [] => [[]]
  | c :: rest =>
    if c = sep then [] :: splitOnChar sep rest
    else
      match splitOnChar sep rest with
      | t :: ts => (c :: t) :: ts
      | [] => [[c]]

/-- Embeds `str.split('\n')`. -/
def jsSplitLines (s : String) : List String :=
  (splitOnChar '\n' s.data).map String.mk

/-- The tag of a diff entry. -/
inductive DiffType where
  | unchanged
  | add
  | remove
deriving DecidableEq, Repr

/-- One entry of the diff output, with a 1-based line number. -/
structure DiffEntry where
  type : DiffType
  lineNum : Nat
  content : String
deriving DecidableEq, Repr

/-- Embeds `diffStrings` (src/lib/helpers.js lines 243-291): split both
inputs on newline, then for each index up to the longer length emit
entries following the source's branch order (`line1` absent, `line2`
absent, lines differ, lines equal).  Both lines absent cannot happen for
an index below the maximum length. -/
def diffStrings (str1 str2 : String) : List DiffEntry :=
  let lines1 := jsSplitLines str1
  let lines2 := jsSplitLines str2
  let maxLen := max lines1.length lines2.length
  (List.range maxLen).flatMap (fun i =>
    match lines1[i]?, lines2[i]? with
    | none, some l2 => [⟨.add, i + 1, l2⟩]
    | some l1, none => [⟨.remove, i + 1, l1⟩]
    | some l1, some l2 =>
      if l1 ≠ l2 then [⟨.remove, i + 1, l1⟩, ⟨.add, i + 1, l2⟩]
      else [⟨.unchanged, i + 1, l1⟩]
    | none, none => [])

/-- The claim's per-index description of the diff walk: `add` when only
the second text has a line at `i`, `remove` when only the first does,
`remove` then `add` when both exist and differ, `unchanged` when equal. -/
def claimDiffAt (lines1 lines2 : List String) (i : Nat) : List DiffEntry :=
  match lines1[i]?, lines2[i]? with
  | none, some b => [⟨.add, i + 1, b⟩]
  | some a, none => [⟨.remove, i + 1, a⟩]
  | some a, some b =>
    if a = b then [⟨.unchanged, i + 1, a⟩]
    else [⟨.remove, i + 1, a⟩, ⟨.add, i + 1, b⟩]
  | none, none => []

/-! ## extractLinks (src/lib/helpers.js lines 340-365)

The two regex scans are embedded as recursive left-to-right matchers.
Both patterns begin with a literal bracket, their character classes are
complements of one or two literal characters, and greedy matching of such
a class runs exactly to the next stopping character, so the regex engine's
behaviour (leftmost match, resume after the match, advance one position on
a failed attempt) is captured without general backtracking. -/

/-- Splits a character list at the first character satisfying `p`:
returns the part before it and the part after it (the stopping character
itself is consumed), or `none` when no character matches. -/
def splitFirst (p : Char → Bool) : List Char → Option (List Char × List Char)
  | [] => none
  | c :: rest =>
    if p c then some ([], rest)
    else (splitFirst p rest).map (fun pr => (c :: pr.1, pr.2))

/-- Kind of an extracted link. -/
inductive LinkType where
  | markdown
  | wiki
deriving DecidableEq, Repr

/-- An extracted link. -/
structure Link where
  text : String
  url : String
  type : LinkType
deriving DecidableEq, Repr

/-- One attempt of `/\[([^\]]*)\]\(([^)]+)\)/` at a position whose `[` has
already been consumed (`rest` follows it): the text runs to the first `]`,
a literal `(` must follow, and the url is the non-empty run to the first
`)`.  On success, the produced link and the continuation after the match;
`none` when the attempt fails at this position. -/
def mdAttempt (rest : List Char) : Option (Link × List Char) :=
  match splitFirst (fun ch => ch = ']') rest with
  | some (text, '(' :: rest2) =>
    match splitFirst (fun ch => ch = ')') rest2 with
    | some (url, after2) =>
      if url = [] then none
      else some (⟨String.mk text, String.mk url, .markdown⟩, after2)
    | none => none
  | _ => none

/-- The first pass of `extractLinks`, the global scan of
`/\[([^\]]*)\]\(([^)]+)\)/`, with a fuel parameter making the recursion
structural: the engine attempts a match at every `[`; on success scanning
resumes after the match, on failure one position further.  Every
recursive call is on a strictly shorter list, so fuel at least the list's
length never runs out (`scanMdGo_fuel_irrelevant`). -/
def scanMdGo : Nat → List Char → List Link
  | 0, _ => []
  | _ + 1, [] => []
  | fuel + 1, c :: rest =>
    if c = '[' then
      match mdAttempt rest with
      | some (lnk, after2) => lnk :: scanMdGo fuel after2
      | none => scanMdGo fuel rest
    else scanMdGo fuel rest

/-- Embeds the markdown-link scan of `extractLinks`. -/
def scanMdLinks (cs : List Char) : List Link := scanMdGo cs.length cs

/-- A character allowed inside the wiki-link target (`[^\]|]`). -/
def wikiTargetChar (c : Char) : Bool := !(c = ']' || c = '|')

/-- A character allowed inside the wiki-link display text (`[^\]]`). -/
def wikiTextChar (c : Char) : Bool := !(c = ']')

/-- One attempt of `/\[\[([^\]|]+)(?:\|([^\]]+))?\]\]/` at a position
whose `[[` has already been consumed (`rest` follows it): the target is
the non-empty run to the first `]` or `|`; an optional `|` introduces the
non-empty display text running to the first `]`; then a literal `]]` must
follow.  The display text defaults to the target (`match[2] || match[1]`).
On success, the produced link and the continuation after the match. -/
def wikiAttempt (rest : List Char) : Option (Link × List Char) :=
  let target := rest.takeWhile wikiTargetChar
  if target = [] then none
  else
    match rest.dropWhile wikiTargetChar with
    | '|' :: rest2 =>
      let text := rest2.takeWhile wikiTextChar
      if text = [] then none
      else
        match rest2.dropWhile wikiTextChar with
        | ']' :: ']' :: rest3 => some (⟨String.mk text, String.mk target, .wiki⟩, rest3)
        | _ => none
    | ']' :: ']' :: rest3 => some (⟨String.mk target, String.mk target, .wiki⟩, rest3)
    | _ => none

/-- The second pass of `extractLinks`, the global scan of
`/\[\[([^\]|]+)(?:\|([^\]]+))?\]\]/`, with a fuel parameter making the
recursion structural: the engine attempts a match at every `[[`; on
success scanning resumes after the match, on failure one position further
(at the second `[`).  Every recursive call is on a strictly shorter list,
so fuel at least the list's length never runs out
(`scanWikiGo_fuel_irrelevant`). -/
def scanWikiGo : Nat → List Char → List Link
  | 0, _ => []
  | _ + 1, [] => []
  | fuel + 1, c :: rest =>
    if c = '[' then
      match rest with
      | '[' :: rest1 =>
        match wikiAttempt rest1 with
        | some (lnk, rest3) => lnk :: scanWikiGo fuel rest3
        | none => scanWikiGo fuel rest
      | _ => scanWikiGo fuel rest
    else scanWikiGo fuel rest

/-- Embeds the wiki-link scan of `extractLinks`. -/
def scanWikiLinks (cs : List Char) : List Link := scanWikiGo cs.length cs

/-- Embeds `extractLinks` (src/lib/helpers.js lines 340-365): the markdown
scan's matches followed by the wiki scan's matches, in one list. -/
def extractLinks (markdown : String) : List Link :=
  scanMdLinks markdown.data ++ scanWikiLinks markdown.data

/-! ## Content similarity (src/tests/helpers.test.js lines 248-261) -/

/-- A JS `\w` character (no unicode flag): ASCII letter, digit or
underscore. -/
def jsWordChar (c : Char) : Bool := c.isAlphanum || c = '_'

/-- Aux for `split(/\s+/)`: accumulate the current piece (reversed in
`acc`); the flag records being inside a separator run, whose further
whitespace characters are skipped without closing another piece. -/
def splitWsAux : Bool → List Char → List Char → List String
  | false, [], acc => [String.mk acc.reverse]
  | true, [], _ => [""]
  | false, c :: rest, acc =>
    if jsWhitespace c then String.mk acc.reverse :: splitWsAux true rest []
    else splitWsAux false rest (c :: acc)
  | true, c :: rest, acc =>
    if jsWhitespace c then splitWsAux true rest acc
    else splitWsAux false rest [c]

/-- Embeds JS `str.split(/\s+/)`: pieces between maximal whitespace runs;
a leading or trailing run contributes an empty piece. -/
def splitWsJS (cs : List Char) : List String := splitWsAux false cs []

/-- Embeds `getWords` (src/tests/helpers.test.js lines 248-253):
lowercase, delete every character that is neither a word character nor
whitespace, split on whitespace runs, keep only words longer than 3. -/
def getWords (text : String) : List String :=
  let lowered := text.data.map Char.toLower
  let stripped := lowered.filter (fun c => jsWordChar c || jsWhitespace c)
  (splitWsJS stripped).filter (fun w => w.length > 3)

/-- Aux for `new Set(list)`: keep each element not seen before, tracking
the seen elements. -/
def jsSetAux : List String → List String → List String
  | [], _ => []
  | x :: rest, seen =>
    if x ∈ seen then jsSetAux rest seen else x :: jsSetAux rest (x :: seen)

/-- Embeds the JS `new Set(list)` iteration order: first occurrence of
each element, in order. -/
def jsSetList (l : List String) : List String := jsSetAux l []

/-- Embeds `similarity` (src/tests/helpers.test.js lines 255-261): the two
word sets, `[...set1].filter(w => set2.has(w)).length / union.size`.  The
JS division of two numbers yields NaN when the union is empty (0/0);
`none` models that NaN. -/
def similarity (words1 words2 : List String) : Option ℚ :=
  let set1 := jsSetList words1
  let set2 := jsSetList words2
  let inter := set1.filter (fun w => w ∈ set2)
  let union := jsSetList (set1 ++ set2)
  if union.length = 0 then none
  else some ((inter.length : ℚ) / (union.length : ℚ))

/-- The spec's `computeSimilarity`: tokenize both texts with `getWords`,
then the word-set similarity. -/
def computeSimilarity (text1 text2 : String) : Option ℚ :=
  similarity (getWords text1) (getWords text2)

/-! ## getStats (src/lib/api.js lines 565-602) -/

/-- The page projection fetched by `getStats` (id is not used by the
aggregation). -/
structure StatPage where
  locale : String
  isPublished : Bool
  tags : Option (List String)
deriving DecidableEq, Repr

/-- One `stats.locales[key] = (stats.locales[key] || 0) + 1` step: the
count map with `key` bumped. -/
def bumpCount (m : String → Nat) (key : String) : String → Nat :=
  fun k => if k = key then m key + 1 else m k

/-- The aggregate computed by `getStats`. -/
structure Stats where
  totalPages : Nat
  publishedPages : Nat
  draftPages : Nat
  locales : String → Nat
  topTags : String → Nat

/-- Embeds the aggregation of `getStats` (src/lib/api.js lines 583-599):
total, published and draft counts, and the per-locale and per-tag count
maps built by the single `forEach` pass (the two maps are updated
independently, so they are two folds here; `(p.tags || [])` treats a
nullish tags field as empty). -/
def getStats (pages : List StatPage) : Stats :=
  { totalPages := pages.length
    publishedPages := (pages.filter (fun p => p.isPublished)).length
    draftPages := (pages.filter (fun p => !p.isPublished)).length
    locales := pages.foldl (fun m p => bumpCount m p.locale) (fun _ => 0)
    topTags := pages.foldl (fun m p => (p.tags.getD []).foldl bumpCount m) (fun _ => 0) }

/-! ## Supporting lemmas -/

theorem replacePass_append (t : Char) (r : List Char) (l1 l2 : List Char) :
    replacePass t r (l1 ++ l2) = replacePass t r l1 ++ replacePass t r l2 := by
  simp [replacePass]

/-- The five sequential escape passes, in the source's order, compute the
single simultaneous substitution of the spec. -/
theorem sanitizePasses_eq_flatMap (cs : List Char) :
    replacePass '\t' ['\\', 't'] (replacePass '\r' ['\\', 'r']
        (replacePass '\n' ['\\', 'n'] (replacePass '"' ['\\', '"']
          (replacePass '\\' ['\\', '\\'] cs))))
      = cs.flatMap escapeCharSpec := by
  induction cs with
  | nil => rfl
  | cons c cs ih =>
    have h1 : replacePass '\\' ['\\', '\\'] (c :: cs)
        = replacePass '\\' ['\\', '\\'] [c] ++ replacePass '\\' ['\\', '\\'] cs := by
      simp [replacePass]
    rw [h1, replacePass_append, replacePass_append, replacePass_append, replacePass_append,
      ih, List.flatMap_cons]
    congr 1
    by_cases h1 : c = '\\'
    · subst h1; rfl
    · by_cases h2 : c = '"'
      · subst h2; rfl
      · by_cases h3 : c = '\n'
        · subst h3; rfl
        · by_cases h4 : c = '\r'
          · subst h4; rfl
          · by_cases h5 : c = '\t'
            · subst h5; rfl
            · simp [replacePass, escapeCharSpec, h1, h2, h3, h4, h5]

theorem flatMap_escapeChar_id {l : List Char} (h : ∀ c ∈ l, escapeCharSpec c = [c]) :
    l.flatMap escapeCharSpec = l := by
  induction l with
  | nil => rfl
  | cons c cs ih =>
    rw [List.flatMap_cons, h c (List.mem_cons_self c cs),
      ih (fun x hx => h x (List.mem_cons_of_mem c hx)), List.singleton_append]

/-! ## Claim theorems -/

/-- C1: `sanitize` is total: it returns the empty string on null/absent
input; otherwise it applies exactly the five escape substitutions in the
source's order (equivalently, one simultaneous per-character substitution,
which is what that order achieves); on a string containing none of the
five characters it is the identity; and it satisfies the spec's concrete
examples for backslashes and double quotes. -/
theorem C1_sanitize_contract :
    sanitizeString none = ""
    ∧ (∀ s : String, sanitizeString (some s) = sanitizeSpec s)
    ∧ (∀ s : String,
        (∀ c ∈ s.data, c ≠ '\\' ∧ c ≠ '"' ∧ c ≠ '\n' ∧ c ≠ '\r' ∧ c ≠ '\t') →
        sanitizeString (some s) = s)
    ∧ sanitizeString (some "a\\b") = "a\\\\b"
    ∧ sanitizeString (some "say \"hi\"") = "say \\\"hi\\\"" := by
  refine ⟨rfl, ?_, ?_, by decide, by decide⟩
  · intro s
    simp only [sanitizeString, sanitizeSpec]
    exact congrArg String.mk (sanitizePasses_eq_flatMap s.data)
  · intro s h
    have hid : ∀ c ∈ s.data, escapeCharSpec c = [c] := by
      intro c hc
      obtain ⟨n1, n2, n3, n4, n5⟩ := h c hc
      simp [escapeCharSpec, n1, n2, n3, n4, n5]
    simp only [sanitizeString]
    rw [sanitizePasses_eq_flatMap, flatMap_escapeChar_id hid]

/-- Witness for C1: the identity conjunct at the concrete safe string
`"abc"`. -/
theorem C1_witness : sanitizeString (some "abc") = "abc" :=
  C1_sanitize_contract.2.2.1 "abc" (by decide)

/-- C2: a decoded envelope with a non-empty `errors` array makes `graphql`
raise `GraphQLError` carrying that array verbatim — both on a successful
HTTP response and inside an HTTP error response — with the semicolon-joined
message; with `errors` absent or empty, the successful response's `data`
field is returned. -/
theorem C2_graphql_error_policy :
    (∀ (α : Type) (env : Envelope α) (errs : List GqlErr),
        env.errors = some errs → errs ≠ [] →
          graphql (.success env) = .error (.gql (GraphQLErr.ofErrors errs))
          ∧ graphql (.failure (some env)) = .error (.gql (GraphQLErr.ofErrors errs))
          ∧ (GraphQLErr.ofErrors errs).errors = errs
          ∧ (GraphQLErr.ofErrors errs).message
              = String.intercalate "; " (errs.map GqlErr.message))
    ∧ (∀ (α : Type) (env : Envelope α),
        env.errors = none ∨ env.errors = some [] →
          graphql (.success env) = .ok env.data) := by
  constructor
  · intro α env errs herr hne
    have hlen : 0 < errs.length := List.length_pos.mpr hne
    refine ⟨?_, ?_, rfl, rfl⟩
    · simp [graphql, interceptResponse, herr, hlen]
    · simp [graphql, interceptResponse, herr]
  · intro α env herr
    rcases herr with h | h <;> simp [graphql, interceptResponse, h]

/-- Witness for C2: a two-entry error array on a successful response of
`Nat` data raises the verbatim `GraphQLError`. -/
theorem C2_witness :
    graphql (HttpOutcome.success
        ({ data := some 5, errors := some [⟨"a"⟩, ⟨"b"⟩] } : Envelope Nat))
      = .error (.gql (GraphQLErr.ofErrors [⟨"a"⟩, ⟨"b"⟩])) :=
  (C2_graphql_error_policy.1 Nat _ [⟨"a"⟩, ⟨"b"⟩] rfl (by decide)).1

/-- Counterexample for C3: a failed create mutation whose remote message
is present but empty raises the fixed default message, not the provided
(empty) message — JS `message || default` falls back on any falsy value. -/
theorem C3_counterexample :
    handleCreateResult (some ⟨some ⟨false, none, some ""⟩, none⟩)
        = .error "Failed to create page"
    ∧ "Failed to create page" ≠ "" := ⟨rfl, by decide⟩

/-- C3 (amended): a mutation decoding with `succeeded` false raises an
error carrying exactly the remote message when one is present and
non-empty, and the operation-specific default when the message is absent,
null, or empty; in particular createPage with
`{succeeded:false, message:"Path already exists"}` raises exactly
`"Path already exists"`. -/
theorem C3_mutation_failure_message :
    (∀ (rr : RespResult) (pg : Option CreatedPage) (m : String),
        rr.succeeded = false → rr.message = some m → m ≠ "" →
          handleCreateResult (some ⟨some rr, pg⟩) = .error m)
    ∧ (∀ (rr : RespResult) (pg : Option CreatedPage),
        rr.succeeded = false → (rr.message = none ∨ rr.message = some "") →
          handleCreateResult (some ⟨some rr, pg⟩) = .error "Failed to create page")
    ∧ (∀ (rr : RespResult) (pg : Option UpdatedPage) (m : String),
        rr.succeeded = false → rr.message = some m → m ≠ "" →
          handleUpdateResult (some ⟨some rr, pg⟩) = .error m)
    ∧ (∀ (rr : RespResult) (pg : Option UpdatedPage),
        rr.succeeded = false → (rr.message = none ∨ rr.message = some "") →
          handleUpdateResult (some ⟨some rr, pg⟩) = .error "Failed to update page")
    ∧ (∀ pg : Option CreatedPage,
        handleCreateResult (some ⟨some ⟨false, none, some "Path already exists"⟩, pg⟩)
          = .error "Path already exists") := by
  refine ⟨?_, ?_, ?_, ?_, fun pg => rfl⟩
  · intro rr pg m hs hm hne
    simp [handleCreateResult, hs, hm, jsOrString, hne]
  · intro rr pg hs hm
    rcases hm with h | h <;> simp [handleCreateResult, hs, h, jsOrString]
  · intro rr pg m hs hm hne
    simp [handleUpdateResult, hs, hm, jsOrString, hne]
  · intro rr pg hs hm
    rcases hm with h | h <;> simp [handleUpdateResult, hs, h, jsOrString]

/-- Witness for C3: the amended claim at the spec's concrete scenario. -/
theorem C3_witness :
    handleCreateResult (some ⟨some ⟨false, none, some "Path already exists"⟩, none⟩)
      = .error "Path already exists" :=
  C3_mutation_failure_message.2.2.2.2 none

theorem isDigit_not_ws {c : Char} (h : c.isDigit = true) : jsWhitespace c = false := by
  have n1 : c ≠ ' ' := by rintro rfl; exact absurd h (by decide)
  have n2 : c ≠ '\t' := by rintro rfl; exact absurd h (by decide)
  have n3 : c ≠ '\n' := by rintro rfl; exact absurd h (by decide)
  have n4 : c ≠ '\r' := by rintro rfl; exact absurd h (by decide)
  have n5 : c ≠ '\x0b' := by rintro rfl; exact absurd h (by decide)
  have n6 : c ≠ '\x0c' := by rintro rfl; exact absurd h (by decide)
  simp [jsWhitespace, n1, n2, n3, n4, n5, n6]

theorem isDigit_not_sign {c : Char} (h : c.isDigit = true) : c ≠ '-' ∧ c ≠ '+' := by
  constructor <;> rintro rfl <;> exact absurd h (by decide)

theorem takeWhile_append_of_all {p : Char → Bool} :
    ∀ (l1 l2 : List Char), (∀ c ∈ l1, p c = true) →
      (l1 ++ l2).takeWhile p = l1 ++ l2.takeWhile p := by
  intro l1
  induction l1 with
  | nil => intro l2 _; rfl
  | cons c rest ih =>
    intro l2 h
    have hc : p c = true := h c (List.mem_cons_self c rest)
    simp only [List.cons_append, List.takeWhile_cons, hc, if_true]
    rw [ih l2 (fun x hx => h x (List.mem_cons_of_mem c hx))]

theorem parseDigits_ignores_rest {ds rest : List Char} (hds : ∀ c ∈ ds, c.isDigit = true)
    (hrest : ∀ c, rest.head? = some c → c.isDigit = false) :
    parseDigits (ds ++ rest) = parseDigits ds := by
  have htail : rest.takeWhile Char.isDigit = [] := by
    cases rest with
    | nil => rfl
    | cons c r =>
      have hc : c.isDigit = false := hrest c rfl
      simp [List.takeWhile_cons, hc]
  have hds2 : ds.takeWhile Char.isDigit = ds := List.takeWhile_eq_self_iff.mpr hds
  simp only [parseDigits]
  rw [takeWhile_append_of_all ds rest hds, htail, List.append_nil, hds2]

/-- C4: `validateId` parses a leading-integer run (trailing non-digit
characters are ignored by `parseInt`), succeeds exactly when the parse is
a number at least 1, and satisfies the spec's four concrete examples. -/
theorem C4_validateId_contract :
    (∀ (ds rest : List Char), ds ≠ [] → (∀ c ∈ ds, c.isDigit = true) →
        (∀ c, rest.head? = some c → c.isDigit = false) →
        parseIntChars (ds ++ rest) = parseIntChars ds)
    ∧ (∀ (s : String) (n : Int), validateId s = .ok n ↔ parseIntJS s = some n ∧ 1 ≤ n)
    ∧ validateId "0" = .error "Invalid ID: 0"
    ∧ validateId "-1" = .error "Invalid ID: -1"
    ∧ validateId "456" = .ok 456
    ∧ validateId "12abc" = .ok 12 := by
  refine ⟨?_, ?_, rfl, rfl, rfl, rfl⟩
  · intro ds rest hne hds hrest
    obtain ⟨d, ds', rfl⟩ := List.exists_cons_of_ne_nil hne
    have hd : d.isDigit = true := hds d (List.mem_cons_self d ds')
    have hw : jsWhitespace d = false := isDigit_not_ws hd
    obtain ⟨hdash, hplus⟩ := isDigit_not_sign hd
    simp only [parseIntChars, List.cons_append, List.dropWhile_cons, hw, Bool.false_eq_true,
      if_false, if_neg hdash, if_neg hplus]
    rw [← List.cons_append, parseDigits_ignores_rest hds hrest]
  · intro s n
    simp only [validateId, parseIntJS]
    cases h : parseIntChars s.data with
    | none => simp
    | some m =>
      show (if m < 1 then (Except.error ("Invalid ID: " ++ s) : Except String Int)
          else Except.ok m) = Except.ok n ↔ some m = some n ∧ 1 ≤ n
      by_cases hm : m < 1
      · rw [if_pos hm]
        constructor
        · intro hco; exact absurd hco (by simp)
        · rintro ⟨hmn, hn⟩
          injection hmn with hmn
          omega
      · rw [if_neg hm]
        constructor
        · intro hok
          injection hok with hok
          exact ⟨by rw [hok], by omega⟩
        · rintro ⟨hmn, _⟩
          injection hmn with hmn
          rw [hmn]

/-- Witness for C4: the trailing-characters conjunct at `"12" ++ "abc"`
and the success characterization at `"456"`. -/
theorem C4_witness :
    parseIntChars ("12".data ++ "abc".data) = parseIntChars "12".data
    ∧ validateId "456" = .ok 456 :=
  ⟨C4_validateId_contract.1 "12".data "abc".data (by decide) (by decide) (by decide),
   (C4_validateId_contract.2.1 "456" 456).mpr ⟨by decide, by decide⟩⟩

/-- C5: `validatePath` fails with the missing-path error on absent, empty
or non-string input; otherwise it strips at most one leading slash and
fails exactly when the remainder contains one of the characters
`< > : " | ? *`, returning the cleaned path otherwise; and it satisfies
the spec's three concrete examples. -/
theorem C5_validatePath_contract :
    validatePath .nullish = .error "Path is required"
    ∧ validatePath .nonString = .error "Path is required"
    ∧ validatePath (.str "") = .error "Path is required"
    ∧ (∀ p : String, (cleanPath p).data
        = match p.data with
          | '/' :: rest => rest
          | _ => p.data)
    ∧ (∀ p : String, p ≠ "" →
        ((∃ c ∈ (cleanPath p).data, c ∈ invalidPathChars) →
            validatePath (.str p) = .error ("Invalid characters in path: " ++ p))
        ∧ ((∀ c ∈ (cleanPath p).data, c ∉ invalidPathChars) →
            validatePath (.str p) = .ok (cleanPath p)))
    ∧ validatePath (.str "/docs/api") = .ok "docs/api"
    ∧ validatePath (.str "doc<s") = .error "Invalid characters in path: doc<s" := by
  refine ⟨rfl, rfl, rfl, ?_, ?_, rfl, rfl⟩
  · intro p
    simp only [cleanPath]
    split
    · rfl
    · rfl
  · intro p hp
    constructor
    · intro hex
      have hany : (cleanPath p).data.any (fun c => c ∈ invalidPathChars) = true := by
        rw [List.any_eq_true]
        obtain ⟨c, hc, hmem⟩ := hex
        exact ⟨c, hc, by simpa using hmem⟩
      simp [validatePath, hp, hany]
    · intro hall
      have hany : (cleanPath p).data.any (fun c => c ∈ invalidPathChars) = false := by
        rw [← Bool.not_eq_true, List.any_eq_true]
        rintro ⟨c, hc, hmem⟩
        exact hall c hc (by simpa using hmem)
      simp [validatePath, hp, hany]

/-- Witness for C5: the characterization conjunct at the concrete path
`"/docs/api"`. -/
theorem C5_witness : validatePath (.str "/docs/api") = .ok (cleanPath "/docs/api") :=
  ((C5_validatePath_contract.2.2.2.2.1 "/docs/api" (by decide)).2) (by decide)

/-- C6: `updatePage` validates the id, fetches the current page before
mutating, and only then issues the mutation built by `buildUpdateFields`
(a record that always carries the complete field set): every omitted
option is filled from the fetched page and every supplied option is used
as given; a successful mutation returns the remote's updated page
projection. -/
theorem C6_updatePage_merge :
    (∀ (remote : Remote) (idRaw : String) (o : UpdateOptions) (v : Int) (cur : PageData),
        validateId idRaw = .ok v → remote.getPage v = some cur →
          updatePage remote idRaw o
            = handleUpdateResult (remote.update (buildUpdateFields v o cur)))
    ∧ (∀ (v : Int) (o : UpdateOptions) (cur : PageData),
        (buildUpdateFields v o cur).id = v
        ∧ (o.content = none → (buildUpdateFields v o cur).content = cur.content)
        ∧ (∀ x, o.content = some x → (buildUpdateFields v o cur).content = x)
        ∧ (o.title = none → (buildUpdateFields v o cur).title = cur.title)
        ∧ (∀ x, o.title = some x → (buildUpdateFields v o cur).title = x)
        ∧ (∀ d, o.description = none → cur.description = some d →
            (buildUpdateFields v o cur).description = d)
        ∧ (∀ x, o.description = some x → (buildUpdateFields v o cur).description = x)
        ∧ (o.isPublished = none → (buildUpdateFields v o cur).isPublished = cur.isPublished)
        ∧ (∀ x, o.isPublished = some x → (buildUpdateFields v o cur).isPublished = x)
        ∧ (∀ ts, o.tags = none → cur.tags = some ts → (buildUpdateFields v o cur).tags = ts)
        ∧ (∀ x, o.tags = some x → (buildUpdateFields v o cur).tags = x))
    ∧ (∀ (pg : Option UpdatedPage) (rr : RespResult), rr.succeeded = true →
        handleUpdateResult (some ⟨some rr, pg⟩) = .ok pg) := by
  refine ⟨?_, ?_, ?_⟩
  · intro remote idRaw o v cur hv hcur
    simp [updatePage, hv, hcur]
  · intro v o cur
    refine ⟨rfl, ?_, ?_, ?_, ?_, ?_, ?_, ?_, ?_, ?_, ?_⟩
    · intro h; simp [buildUpdateFields, h]
    · intro x h; simp [buildUpdateFields, h]
    · intro h; simp [buildUpdateFields, h]
    · intro x h; simp [buildUpdateFields, h]
    · intro d h1 h2; simp [buildUpdateFields, h1, h2]
    · intro x h; simp [buildUpdateFields, h]
    · intro h; simp [buildUpdateFields, h]
    · intro x h; simp [buildUpdateFields, h]
    · intro ts h1 h2; simp [buildUpdateFields, h1, h2]
    · intro x h; simp [buildUpdateFields, h]
  · intro pg rr hs
    simp [handleUpdateResult, hs]

/-- Witness for C6: a concrete remote with one page and a succeeding
mutation; `updatePage` with empty options reduces to the handled mutation
result. -/
theorem C6_witness :
    updatePage
        { getPage := fun _ => some ⟨7, "p", "T", "C", some "D", some ["t"], true, "now"⟩,
          update := fun _ => some ⟨some ⟨true, none, none⟩, some ⟨7, "p", "T", "later"⟩⟩ }
        "7" {}
      = handleUpdateResult (some ⟨some ⟨true, none, none⟩, some ⟨7, "p", "T", "later"⟩⟩) :=
  C6_updatePage_merge.1 _ "7" {} 7 _ rfl rfl

theorem splitFirst_snd_length {p : Char → Bool} :
    ∀ {cs : List Char} {a b : List Char}, splitFirst p cs = some (a, b) →
      b.length < cs.length := by
  intro cs
  induction cs with
  | nil => intro a b h; simp [splitFirst] at h
  | cons c rest ih =>
    intro a b h
    simp only [splitFirst] at h
    by_cases hc : p c
    · rw [if_pos hc] at h
      have hb : b = rest := (congrArg Prod.snd (Option.some.inj h)).symm
      rw [hb]
      exact Nat.lt_succ_self _
    · rw [if_neg hc] at h
      cases hsp : splitFirst p rest with
      | none => rw [hsp] at h; simp at h
      | some pr =>
        rw [hsp] at h
        have hb : b = pr.2 := (congrArg Prod.snd (Option.some.inj h)).symm
        rw [hb]
        exact Nat.lt_succ_of_lt (ih hsp)

theorem dropWhile_length_le (p : Char → Bool) (l : List Char) :
    (l.dropWhile p).length ≤ l.length :=
  (List.dropWhile_suffix p).length_le

/-- A successful markdown-link attempt yields a markdown-kind link and a
continuation strictly shorter than its input. -/
theorem mdAttempt_spec {rest : List Char} {lnk : Link} {after2 : List Char}
    (h : mdAttempt rest = some (lnk, after2)) :
    lnk.type = .markdown ∧ after2.length < rest.length := by
  unfold mdAttempt at h
  split at h
  · split at h
    · split at h
      · exact absurd h (by simp)
      · rename_i x1 text rest2 hs1 x2 url after2x hs2 hu
        injection h with hpair
        injection hpair with hl ha
        subst ha
        have b1 := splitFirst_snd_length hs1
        have b2 := splitFirst_snd_length hs2
        simp only [List.length_cons] at b1
        exact ⟨by rw [← hl], by omega⟩
    · exact Option.noConfusion h
  · exact Option.noConfusion h

/-- A successful wiki-link attempt yields a wiki-kind link and a
continuation strictly shorter than its input. -/
theorem wikiAttempt_spec {rest : List Char} {lnk : Link} {rest3 : List Char}
    (h : wikiAttempt rest = some (lnk, rest3)) :
    lnk.type = .wiki ∧ rest3.length < rest.length := by
  simp only [wikiAttempt] at h
  split at h
  · exact Option.noConfusion h
  · split at h
    · split at h
      · exact Option.noConfusion h
      · split at h
        · rename_i ht1 x1 rest2 hd1 ht2 x2 rest3x hd2
          injection h with hpair
          injection hpair with hl ha
          subst ha
          have b1 := dropWhile_length_le wikiTargetChar rest
          have b2 := dropWhile_length_le wikiTextChar rest2
          rw [hd1] at b1
          rw [hd2] at b2
          simp only [List.length_cons] at b1 b2
          exact ⟨by rw [← hl], by omega⟩
        · exact Option.noConfusion h
    · rename_i ht x1 rest3x hd1
      injection h with hpair
      injection hpair with hl ha
      subst ha
      have b1 := dropWhile_length_le wikiTargetChar rest
      rw [hd1] at b1
      simp only [List.length_cons] at b1
      exact ⟨by rw [← hl], by omega⟩
    · exact Option.noConfusion h

/-- Fuel at least the list's length is enough for the markdown scan: any
such fuel computes `scanMdLinks`. -/
theorem scanMdGo_fuel_irrelevant :
    ∀ (f : Nat) (cs : List Char), cs.length ≤ f → scanMdGo f cs = scanMdLinks cs := by
  intro f
  induction f using Nat.strong_induction_on with
  | _ f ih =>
    intro cs hlen
    cases cs with
    | nil => cases f <;> rfl
    | cons c rest =>
      cases f with
      | zero => simp only [List.length_cons] at hlen; omega
      | succ g =>
        simp only [List.length_cons] at hlen
        have hg : rest.length ≤ g := by omega
        show scanMdGo (g + 1) (c :: rest) = scanMdGo (c :: rest).length (c :: rest)
        simp only [List.length_cons, scanMdGo]
        by_cases hc : c = '['
        · simp only [if_pos hc]
          cases hA : mdAttempt rest with
          | none =>
            show scanMdGo g rest = scanMdGo rest.length rest
            rw [ih g (Nat.lt_succ_self g) rest hg,
              ih rest.length (Nat.lt_succ_of_le hg) rest (le_refl rest.length)]
          | some pr =>
            obtain ⟨lnk, after2⟩ := pr
            have hb := (mdAttempt_spec hA).2
            show lnk :: scanMdGo g after2 = lnk :: scanMdGo rest.length after2
            rw [ih g (Nat.lt_succ_self g) after2 (by omega),
              ih rest.length (Nat.lt_succ_of_le hg) after2 (by omega)]
        · simp only [if_neg hc]
          rw [ih g (Nat.lt_succ_self g) rest hg,
            ih rest.length (Nat.lt_succ_of_le hg) rest (le_refl rest.length)]

/-- Reduction of the wiki scan when the second character is not `[`. -/
theorem scanWikiGo_nil (f : Nat) : scanWikiGo f [] = [] := by
  cases f <;> rfl

theorem scanWikiGo_brack_ne (f : Nat) (c2 : Char) (rest1 : List Char) (hc2 : c2 ≠ '[') :
    scanWikiGo (f + 1) ('[' :: c2 :: rest1) = scanWikiGo f (c2 :: rest1) := by
  simp only [scanWikiGo]
  split
  · split
    · rename_i rest1x heq
      injection heq with h1 _
      exact absurd h1 hc2
    · rfl
  · rfl

/-- Fuel at least the list's length is enough for the wiki scan: any such
fuel computes `scanWikiLinks`. -/
theorem scanWikiGo_fuel_irrelevant :
    ∀ (f : Nat) (cs : List Char), cs.length ≤ f → scanWikiGo f cs = scanWikiLinks cs := by
  intro f
  induction f using Nat.strong_induction_on with
  | _ f ih =>
    intro cs hlen
    cases cs with
    | nil => cases f <;> rfl
    | cons c rest =>
      cases f with
      | zero => simp only [List.length_cons] at hlen; omega
      | succ g =>
        simp only [List.length_cons] at hlen
        have hg : rest.length ≤ g := by omega
        show scanWikiGo (g + 1) (c :: rest) = scanWikiGo (c :: rest).length (c :: rest)
        by_cases hc : c = '['
        · subst hc
          cases rest with
          | nil =>
            show scanWikiGo g [] = ([] : List Link)
            exact scanWikiGo_nil g
          | cons c2 rest1 =>
            by_cases hc2 : c2 = '['
            · subst hc2
              show (match wikiAttempt rest1 with
                    | some (lnk, rest3) => lnk :: scanWikiGo g rest3
                    | none => scanWikiGo g ('[' :: rest1))
                  = (match wikiAttempt rest1 with
                    | some (lnk, rest3) => lnk :: scanWikiGo (rest1.length + 1) rest3
                    | none => scanWikiGo (rest1.length + 1) ('[' :: rest1))
              simp only [List.length_cons] at hlen
              have hg1 : rest1.length + 1 ≤ g := by omega
              cases hA : wikiAttempt rest1 with
              | none =>
                show scanWikiGo g ('[' :: rest1) = scanWikiGo (rest1.length + 1) ('[' :: rest1)
                rw [ih g (Nat.lt_succ_self g) ('[' :: rest1) (by simp; omega),
                  ih (rest1.length + 1) (by omega) ('[' :: rest1) (by simp)]
              | some pr =>
                obtain ⟨lnk, rest3⟩ := pr
                have hb := (wikiAttempt_spec hA).2
                show lnk :: scanWikiGo g rest3 = lnk :: scanWikiGo (rest1.length + 1) rest3
                rw [ih g (Nat.lt_succ_self g) rest3 (by omega),
                  ih (rest1.length + 1) (by omega) rest3 (by omega)]
            · simp only [List.length_cons] at hlen ⊢
              rw [scanWikiGo_brack_ne g c2 rest1 hc2,
                scanWikiGo_brack_ne (rest1.length + 1) c2 rest1 hc2]
              have hlc : (c2 :: rest1).length ≤ g := by simp; omega
              rw [ih g (Nat.lt_succ_self g) (c2 :: rest1) hlc,
                ih (rest1.length + 1) (by omega) (c2 :: rest1) (by simp)]
        · show scanWikiGo (g + 1) (c :: rest) = scanWikiGo (rest.length + 1) (c :: rest)
          simp only [scanWikiGo, if_neg hc]
          rw [ih g (Nat.lt_succ_self g) rest hg,
            ih rest.length (Nat.lt_succ_of_le hg) rest (le_refl rest.length)]

/-- Every link produced by the markdown scan is markdown-kind. -/
theorem scanMdGo_types :
    ∀ (fuel : Nat) (cs : List Char) (l : Link), l ∈ scanMdGo fuel cs →
      l.type = .markdown := by
  intro fuel
  induction fuel with
  | zero => intro cs l h; simp [scanMdGo] at h
  | succ f ih =>
    intro cs l h
    cases cs with
    | nil => simp [scanMdGo] at h
    | cons c rest =>
      simp only [scanMdGo] at h
      split at h
      · split at h
        · rename_i lnk after2 heq
          rcases List.mem_cons.mp h with rfl | h2
          · exact (mdAttempt_spec heq).1
          · exact ih _ l h2
        · exact ih _ l h
      · exact ih _ l h

/-- Every link produced by the wiki scan is wiki-kind. -/
theorem scanWikiGo_types :
    ∀ (fuel : Nat) (cs : List Char) (l : Link), l ∈ scanWikiGo fuel cs →
      l.type = .wiki := by
  intro fuel
  induction fuel with
  | zero => intro cs l h; simp [scanWikiGo] at h
  | succ f ih =>
    intro cs l h
    cases cs with
    | nil => simp [scanWikiGo] at h
    | cons c rest =>
      simp only [scanWikiGo] at h
      split at h
      · split at h
        · split at h
          · rename_i lnk rest3 heq
            rcases List.mem_cons.mp h with rfl | h2
            · exact (wikiAttempt_spec heq).1
            · exact ih _ l h2
          · exact ih _ l h
        · exact ih _ l h
      · exact ih _ l h

/-- C8: `extractLinks` is the concatenation of the two independent passes
with all markdown matches before all wiki matches (each pass only emits
its own kind), the wiki text defaults to the target when absent, and the
spec's example `[[a|B]]` yields exactly
`{text := "B", url := "a", kind := wiki}`. -/
theorem C8_extractLinks_contract :
    (∀ s : String, extractLinks s = scanMdLinks s.data ++ scanWikiLinks s.data)
    ∧ (∀ (s : String) (l : Link), l ∈ scanMdLinks s.data → l.type = .markdown)
    ∧ (∀ (s : String) (l : Link), l ∈ scanWikiLinks s.data → l.type = .wiki)
    ∧ extractLinks "[[a|B]]" = [⟨"B", "a", .wiki⟩]
    ∧ extractLinks "See [[some-page]] for more info"
        = [⟨"some-page", "some-page", .wiki⟩]
    ∧ extractLinks "Check [this link](http://example.com) out"
        = [⟨"this link", "http://example.com", .markdown⟩] := by
  refine ⟨fun s => rfl, ?_, ?_, by decide, by decide, by decide⟩
  · intro s l h
    exact scanMdGo_types s.data.length s.data l h
  · intro s l h
    exact scanWikiGo_types s.data.length s.data l h

/-- Witness for C8: the kind conjuncts applied to concrete scans. -/
theorem C8_witness :
    (Link.mk "this" "u" .markdown).type = .markdown
    ∧ (Link.mk "B" "a" .wiki).type = .wiki :=
  ⟨C8_extractLinks_contract.2.1 "[this](u)" ⟨"this", "u", .markdown⟩ (by decide),
   C8_extractLinks_contract.2.2.1 "[[a|B]]" ⟨"B", "a", .wiki⟩ (by decide)⟩

/-- C7: `diffLines` walks the padded line lists index by index and emits
exactly the entries described by the claim at every position (add when
only the second text has a line, remove when only the first does, remove
then add with the same 1-based line number when both differ, unchanged
when equal), with the spec's two concrete examples. -/
theorem C7_diffStrings_contract :
    (∀ s1 s2 : String,
        diffStrings s1 s2
          = (List.range (max (jsSplitLines s1).length (jsSplitLines s2).length)).flatMap
              (claimDiffAt (jsSplitLines s1) (jsSplitLines s2)))
    ∧ diffStrings "line1\nline2" "line1\nline2"
        = [⟨.unchanged, 1, "line1"⟩, ⟨.unchanged, 2, "line2"⟩]
    ∧ diffStrings "old" "new" = [⟨.remove, 1, "old"⟩, ⟨.add, 1, "new"⟩] := by
  refine ⟨?_, by decide, by decide⟩
  intro s1 s2
  simp only [diffStrings]
  refine List.flatMap_congr (fun i _ => ?_)
  simp only [claimDiffAt]
  cases h1 : (jsSplitLines s1)[i]? <;> cases h2 : (jsSplitLines s2)[i]? <;> simp

theorem jsSetAux_mem :
    ∀ (l seen : List String) (x : String),
      x ∈ jsSetAux l seen ↔ x ∈ l ∧ x ∉ seen := by
  intro l
  induction l with
  | nil => intro seen x; simp [jsSetAux]
  | cons y rest ih =>
    intro seen x
    simp only [jsSetAux]
    by_cases hy : y ∈ seen
    · rw [if_pos hy, ih]
      constructor
      · rintro ⟨h1, h2⟩
        exact ⟨List.mem_cons_of_mem y h1, h2⟩
      · rintro ⟨h1, h2⟩
        rcases List.mem_cons.mp h1 with rfl | h1
        · exact absurd hy h2
        · exact ⟨h1, h2⟩
    · rw [if_neg hy]
      constructor
      · intro hm
        rcases List.mem_cons.mp hm with rfl | hm
        · exact ⟨List.mem_cons_self x rest, hy⟩
        · obtain ⟨h1, h2⟩ := (ih (y :: seen) x).mp hm
          exact ⟨List.mem_cons_of_mem y h1,
            fun hc => h2 (List.mem_cons_of_mem y hc)⟩
      · rintro ⟨h1, h2⟩
        rcases List.mem_cons.mp h1 with rfl | h1
        · exact List.mem_cons_self x _
        · by_cases hxy : x = y
          · subst hxy; exact List.mem_cons_self x _
          · refine List.mem_cons_of_mem y ((ih (y :: seen) x).mpr ⟨h1, ?_⟩)
            intro hc
            rcases List.mem_cons.mp hc with h | h
            · exact hxy h
            · exact h2 h

theorem jsSetAux_nodup : ∀ (l seen : List String), (jsSetAux l seen).Nodup := by
  intro l
  induction l with
  | nil => intro seen; simp [jsSetAux]
  | cons y rest ih =>
    intro seen
    simp only [jsSetAux]
    by_cases hy : y ∈ seen
    · rw [if_pos hy]; exact ih seen
    · rw [if_neg hy]
      refine List.nodup_cons.mpr ⟨?_, ih (y :: seen)⟩
      intro hc
      exact ((jsSetAux_mem rest (y :: seen) y).mp hc).2 (List.mem_cons_self y seen)

theorem jsSetList_mem (l : List String) (x : String) : x ∈ jsSetList l ↔ x ∈ l := by
  rw [jsSetList, jsSetAux_mem]
  simp

theorem jsSetList_nodup (l : List String) : (jsSetList l).Nodup := jsSetAux_nodup l []

theorem length_eq_card_of_mem_iff {l : List String} {t : Finset String}
    (hn : l.Nodup) (hm : ∀ x, x ∈ l ↔ x ∈ t) : l.length = t.card := by
  have he : l.toFinset = t := Finset.ext (fun x => by rw [List.mem_toFinset]; exact hm x)
  rw [← he, List.toFinset_card_of_nodup hn]

/-- The test-file `similarity` computes the Jaccard index of the two word
sets, with `none` (JS NaN from 0/0) when the union is empty. -/
theorem similarity_eq_jaccard (w1 w2 : List String) :
    similarity w1 w2
      = (if (w1.toFinset ∪ w2.toFinset).card = 0 then none
        else some (((w1.toFinset ∩ w2.toFinset).card : ℚ)
          / ((w1.toFinset ∪ w2.toFinset).card : ℚ))) := by
  have hinter : ((jsSetList w1).filter (fun w => w ∈ jsSetList w2)).length
      = (w1.toFinset ∩ w2.toFinset).card := by
    refine length_eq_card_of_mem_iff ((jsSetList_nodup w1).filter _) (fun x => ?_)
    rw [List.mem_filter]
    simp [jsSetList_mem, Finset.mem_inter, List.mem_toFinset]
  have hunion : (jsSetList (jsSetList w1 ++ jsSetList w2)).length
      = (w1.toFinset ∪ w2.toFinset).card := by
    refine length_eq_card_of_mem_iff (jsSetList_nodup _) (fun x => ?_)
    rw [jsSetList_mem]
    simp [List.mem_append, jsSetList_mem, Finset.mem_union, List.mem_toFinset]
  simp only [similarity]
  rw [hinter, hunion]

/-- Counterexample for C9: on two empty texts the word sets are empty, the
union is empty, and the JS division is 0/0 = NaN (modeled `none`) — not
the similarity 0 the claim asserts, and not a value in [0,1]. -/
theorem C9_counterexample :
    computeSimilarity "" "" = none ∧ computeSimilarity "" "" ≠ some 0 :=
  ⟨by decide, by decide⟩

/-- C9 (amended): `computeSimilarity` tokenizes with `getWords` and returns
the Jaccard index of the two word sets whenever the union is non-empty —
a value in [0,1], equal to 1 for identical non-empty word lists and 0 for
disjoint non-empty vocabularies — but on an empty union the division is
0/0 = NaN (modeled `none`), not 0. -/
theorem C9_computeSimilarity_jaccard :
    (∀ (t1 t2 : String) (q : ℚ), computeSimilarity t1 t2 = some q → 0 ≤ q ∧ q ≤ 1)
    ∧ (∀ t1 t2 : String, getWords t1 = getWords t2 → getWords t1 ≠ [] →
        computeSimilarity t1 t2 = some 1)
    ∧ (∀ t1 t2 : String, (∀ w ∈ getWords t1, w ∉ getWords t2) →
        getWords t1 ≠ [] → computeSimilarity t1 t2 = some 0)
    ∧ (∀ t1 t2 : String, (getWords t1).toFinset ∪ (getWords t2).toFinset = ∅ →
        computeSimilarity t1 t2 = none) := by
  refine ⟨?_, ?_, ?_, ?_⟩
  · intro t1 t2 q h
    rw [computeSimilarity, similarity_eq_jaccard] at h
    by_cases hc : ((getWords t1).toFinset ∪ (getWords t2).toFinset).card = 0
    · rw [if_pos hc] at h
      exact absurd h (by simp)
    · rw [if_neg hc] at h
      injection h with h
      have hAB : ((getWords t1).toFinset ∩ (getWords t2).toFinset).card
          ≤ ((getWords t1).toFinset ∪ (getWords t2).toFinset).card :=
        Finset.card_le_card Finset.inter_subset_union
      have hB : 0 < (((getWords t1).toFinset ∪ (getWords t2).toFinset).card : ℚ) := by
        have := Nat.pos_of_ne_zero hc
        exact_mod_cast this
      constructor
      · rw [← h]
        positivity
      · rw [← h]
        rw [div_le_one hB]
        exact_mod_cast hAB
  · intro t1 t2 heq hne
    rw [computeSimilarity, similarity_eq_jaccard, heq]
    rw [heq] at hne
    have hnonempty : (getWords t2).toFinset.Nonempty := by
      obtain ⟨x, hx⟩ := List.exists_mem_of_ne_nil _ hne
      exact ⟨x, List.mem_toFinset.mpr hx⟩
    have hcard : (getWords t2).toFinset.card ≠ 0 := by
      have := Finset.card_pos.mpr hnonempty
      omega
    rw [Finset.union_self, Finset.inter_self, if_neg hcard]
    rw [div_self (by exact_mod_cast hcard)]
  · intro t1 t2 hdisj hne
    rw [computeSimilarity, similarity_eq_jaccard]
    have hinter : (getWords t1).toFinset ∩ (getWords t2).toFinset = ∅ := by
      refine Finset.eq_empty_of_forall_not_mem (fun x hx => ?_)
      obtain ⟨h1, h2⟩ := Finset.mem_inter.mp hx
      exact hdisj x (List.mem_toFinset.mp h1) (List.mem_toFinset.mp h2)
    have hcard : ((getWords t1).toFinset ∪ (getWords t2).toFinset).card ≠ 0 := by
      obtain ⟨x, hx⟩ := List.exists_mem_of_ne_nil _ hne
      have : x ∈ (getWords t1).toFinset ∪ (getWords t2).toFinset :=
        Finset.mem_union_left _ (List.mem_toFinset.mpr hx)
      have := Finset.card_pos.mpr ⟨x, this⟩
      omega
    rw [if_neg hcard, hinter]
    simp
  · intro t1 t2 hempty
    rw [computeSimilarity, similarity_eq_jaccard, hempty]
    simp

/-- Witness for C9: the amended claim's identical-texts conjunct at a
concrete three-word text. -/
theorem C9_witness : computeSimilarity "alpha beta gamma" "alpha beta gamma" = some 1 :=
  C9_computeSimilarity_jaccard.2.1 "alpha beta gamma" "alpha beta gamma" rfl (by decide)

theorem foldl_bumpCount_count (pages : List StatPage) :
    ∀ (m : String → Nat) (k : String),
      (pages.foldl (fun m p => bumpCount m p.locale) m) k
        = m k + (pages.map (fun p => p.locale)).count k := by
  induction pages with
  | nil => intro m k; simp
  | cons p rest ih =>
    intro m k
    simp only [List.foldl_cons, List.map_cons, List.count_cons]
    rw [ih]
    by_cases hk : p.locale = k
    · simp [bumpCount, hk]
      omega
    · have hk2 : ¬(k = p.locale) := fun h => hk h.symm
      simp [bumpCount, hk, hk2]

theorem length_filter_isPublished (pages : List StatPage) :
    (pages.filter (fun p => p.isPublished)).length
      + (pages.filter (fun p => !p.isPublished)).length = pages.length := by
  induction pages with
  | nil => rfl
  | cons p rest ih =>
    by_cases hp : p.isPublished <;> simp [List.filter_cons, hp] <;> omega

/-- C10: the stats computed by `getStats` partition the page list: the
published and draft counts sum to the total, and the per-locale counts,
summed over the distinct locales present, also sum to the total. -/
theorem C10_getStats_partitions :
    ∀ pages : List StatPage,
      (getStats pages).publishedPages + (getStats pages).draftPages
          = (getStats pages).totalPages
      ∧ ((pages.map (fun p => p.locale)).dedup.map (getStats pages).locales).sum
          = (getStats pages).totalPages := by
  intro pages
  constructor
  · exact length_filter_isPublished pages
  · have hloc : ∀ k, (getStats pages).locales k
        = (pages.map (fun p => p.locale)).count k := by
      intro k
      show (pages.foldl (fun m p => bumpCount m p.locale) (fun _ => 0)) k
          = (pages.map (fun p => p.locale)).count k
      rw [foldl_bumpCount_count]
      omega
    calc ((pages.map (fun p => p.locale)).dedup.map (getStats pages).locales).sum
        = ((pages.map (fun p => p.locale)).dedup.map
            (fun k => (pages.map (fun p => p.locale)).count k)).sum := by
          exact congrArg List.sum (List.map_congr_left (fun k _ => hloc k))
      _ = (pages.map (fun p => p.locale)).length :=
          List.sum_map_count_dedup_eq_length _
      _ = pages.length := List.length_map _ _

end Wikijs
